import Mathlib

/-!
# Verification of the yoblox-setup state machine engine

Shallow embedding of `src/statemachine.js` (the `StateMachine` class) and of
the port-selection logic of the `rojoServer` step, together with proofs of
the specification's claims about them.

Modelling conventions:
* JS values stored in the shared `context` object are modelled by the
  JSON-shaped inductive `JsVal`; a JS object is an insertion-ordered
  association list with unique keys, and object spread `{...a, ...b}` is
  `omerge a b` (keys of `b` override, new keys of `b` are appended).
* Asynchronous effects are modelled by explicit state passing: the file
  system holding the progress file is a `World`, prompt answers and the
  per-invocation behaviour of a step's `run` are passed as parameters
  (a step's `run` receives the number of previous invocations at the
  current position, so that retry scenarios are expressible).
* `fs.writeFileSync`/`readFileSync`/`JSON.parse` are abstracted: the file
  holds either nothing, an unparseable blob, or a parsed `ProgressRecord`;
  a `World.writeFails` flag models a failing write.  Serialization of a
  record is the identity on the JSON-shaped data (JSON.stringify followed
  by JSON.parse is the identity on such values).
* Thrown JS exceptions become `Except EngineError`; observable side
  effects (which hooks were invoked, warnings logged, file writes) are
  recorded in an event trace.
* The unbounded `while` loop of `StateMachine.run` is modelled with fuel;
  running out of fuel is a distinguished outcome, never confused with
  normal termination or a thrown error.
-/

/-- JSON-shaped JS values (the values that can live in the `context`). -/
inductive JsVal where
  | null : JsVal
  | bool : Bool → JsVal
  | num : Int → JsVal
  | str : String → JsVal
  | obj : List (String × JsVal) → JsVal

/-- A JS object: insertion-ordered association list with unique keys. -/
abbrev Ctx := List (String × JsVal)

/-- Property lookup `o[k]` on a JS object (first binding wins). -/
def oget (o : Ctx) (k : String) : Option JsVal :=
  match o with
  | [] => none
  | (k', v) :: rest => if k' = k then some v else oget rest k

/-- Assignment `o[k] = v`: overwrite the existing binding in place, or
append a new binding at the end (JS insertion order). -/
def oinsert (o : Ctx) (k : String) (v : JsVal) : Ctx :=
  match o with
  | [] => [(k, v)]
  | (k', v') :: rest =>
      if k' = k then (k', v) :: rest else (k', v') :: oinsert rest k v

/-- Object spread `{...a, ...b}`: every binding of `b` overrides or
extends `a`, in order. -/
def omerge (a b : Ctx) : Ctx :=
  b.foldl (fun acc kv => oinsert acc kv.1 kv.2) a

/-- Result of a step's `check(context)`. -/
structure CheckResult where
  found : Bool
  canSkip : Bool

/-- Result of a step's `run(context)`.  In JS, `retry` and `skip` are
absent (hence falsy) unless the step sets them, so they are plain `Bool`s
here; `data` is an object or absent (`if (result.data)` is truthy exactly
when an object is present, since every JS object is truthy). -/
structure RunResult where
  success : Bool
  retry : Bool := false
  skip : Bool := false
  data : Option Ctx := none

/-- A state module as consumed by the engine.  `name` is `none` when the
module has no `name` property; `check` and `run` are optional properties.
A `run` function receives the number of times this step's `run` was
already invoked at the current position, which lets a single pure
function model a step whose behaviour differs across retries. -/
structure StateUnit where
  name : Option String
  check : Option (Ctx → CheckResult) := none
  run : Option (Nat → Ctx → RunResult) := none

/-- JS truthiness of the `name` property: `!state.name` is true for a
missing name and for the empty string. -/
def jsTruthyName (n : Option String) : Bool :=
  match n with
  | none => false
  | some s => s ≠ ""

/-- String interpolation `${state.name}` (an absent property prints as
`undefined`). -/
def jsShowName (n : Option String) : String :=
  match n with
  | none => "undefined"
  | some s => s

/-- The context update at the end of `executeState` (lines 182-184):
`if (result.data) { this.context = {...this.context, ...result.data}; }` —
note the merge is guarded only on the presence of `data`, not on the
`success` flag. -/
def mergeData (ctx : Ctx) (d : Option Ctx) : Ctx :=
  match d with
  | some x => omerge ctx x
  | none => ctx

/-- Errors thrown out of the engine. -/
inductive EngineError where
  | invalidState
  | stateFailed (name : String)
deriving DecidableEq, Repr

/-- Observable actions of a single `executeState` call. -/
inductive ExecEvent where
  | checkCalled
  | runCalled
  | skipped
deriving DecidableEq, Repr

/-- `StateMachine.executeState(state)` from `src/statemachine.js`
(lines 164-187): validate the state, consult `check` for skippability,
otherwise invoke `run` and merge any returned `data` into the context.
Returns the step result together with the updated context and the trace
of hook invocations; a thrown error is `Except.error`. -/
def executeState (state : StateUnit) (calls : Nat) (ctx : Ctx) :
    Except EngineError (RunResult × Ctx) × List ExecEvent :=
  match state.run with
  | none => (.error .invalidState, [])
  | some run =>
      if jsTruthyName state.name = false then
        (.error .invalidState, [])
      else
        let runPart : Except EngineError (RunResult × Ctx) × List ExecEvent :=
          let result := run calls ctx
          (.ok (result, mergeData ctx result.data), [.runCalled])
        match state.check with
        | some check =>
            let checkResult := check ctx
            if checkResult.found && checkResult.canSkip then
              (.ok ({ success := true, skip := true }, ctx), [.checkCalled, .skipped])
            else
              (runPart.1, .checkCalled :: runPart.2)
        | none => runPart

/-- The persisted Progress Record, as written by `saveProgress`
(lines 60-66 of `src/statemachine.js`). -/
structure ProgressRecord where
  version : String
  timestamp : String
  currentStateIndex : Nat
  completedStates : List String
  context : Ctx

/-- The on-disk state of the progress file `.yoblox-setup-state.json`:
missing, present but unparseable, or a parsed record (JSON.stringify
followed by JSON.parse is the identity on the JSON-shaped record). -/
inductive FileState where
  | absent
  | corrupt
  | record (r : ProgressRecord)

/-- The part of the outside world the engine touches: the progress file,
whether `fs.writeFileSync` fails, and the current clock reading
(`new Date().toISOString()`). -/
structure World where
  file : FileState
  writeFails : Bool
  now : String

/-- In-memory engine state: the fields of a `StateMachine` instance that
evolve during a run. -/
structure Machine where
  context : Ctx
  currentStateIndex : Nat
  completedStates : List String

/-- The context built in the constructor (lines 27-32): it starts with
four fixed keys, `installedTools: {}`, `userChoices: {}`, `os: null`,
`projectName: null`. -/
def initialContext : Ctx :=
  [("installedTools", .obj []), ("userChoices", .obj []),
   ("os", .null), ("projectName", .null)]

/-- `new StateMachine(states, options)` (lines 24-35): fresh context,
index 0, no completed states. -/
def Machine.new : Machine :=
  { context := initialContext, currentStateIndex := 0, completedStates := [] }

/-- Observable actions of an engine run. -/
inductive Event where
  | checkCalled (i : Nat)
  | runCalled (i : Nat)
  | skipped (i : Nat)
  | saved
  | saveWarned
  | loadWarned
  | cleared
deriving DecidableEq, Repr

/-- Tag the events of one `executeState` call with the step index. -/
def tagExec (i : Nat) (e : ExecEvent) : Event :=
  match e with
  | .checkCalled => .checkCalled i
  | .runCalled => .runCalled i
  | .skipped => .skipped i

/-- `loadProgress()` (lines 41-53): `null` when the file is missing;
on a read/parse failure, warn and return `null`; otherwise the parsed
record.  Never throws. -/
def loadProgress (w : World) : Option ProgressRecord × List Event :=
  match w.file with
  | .absent => (none, [])
  | .corrupt => (none, [.loadWarned])
  | .record r => (some r, [])

/-- `saveProgress()` (lines 58-72): write a fresh record (version
`"1.0.0"`, current timestamp, current index, completed states, context);
a write failure is caught and downgraded to a warning. -/
def saveProgress (m : Machine) (w : World) : World × List Event :=
  if w.writeFails then
    (w, [.saveWarned])
  else
    let rec0 : ProgressRecord :=
      { version := "1.0.0", timestamp := w.now,
        currentStateIndex := m.currentStateIndex,
        completedStates := m.completedStates,
        context := m.context }
    ({ w with file := .record rec0 }, [.saved])

/-- `clearProgress()` (lines 77-85): delete the file if present (errors
ignored, absence is not an error). -/
def clearProgress (w : World) : World × List Event :=
  ({ w with file := .absent }, [.cleared])

/-- `restoreProgress(saved)` (lines 91-97).  Each field is taken from the
record with a JS `||` fallback; for a record produced by `saveProgress`
only the numeric field can be falsy (`0 || 0 = 0`), arrays and objects
are always truthy. -/
def restoreProgress (saved : ProgressRecord) (_m : Machine) : Machine :=
  { currentStateIndex := if saved.currentStateIndex = 0 then 0 else saved.currentStateIndex,
    completedStates := saved.completedStates,
    context := saved.context }

/-- Lines 132-134: append the state's name to `completedStates` unless it
is already there. -/
def pushCompleted (nm : String) (m : Machine) : Machine :=
  if m.completedStates.contains nm then m
  else { m with completedStates := m.completedStates ++ [nm] }

/-- Line 140: `this.currentStateIndex++`. -/
def advanceIndex (m : Machine) : Machine :=
  { m with currentStateIndex := m.currentStateIndex + 1 }

/-- Outcome of `StateMachine.run`: normal return, a thrown error, or
exhausted fuel (the JS loop would still be running). -/
inductive Outcome where
  | ok (m : Machine) (w : World)
  | err (e : EngineError) (m : Machine) (w : World)
  | fuelOut (m : Machine) (w : World)

/-- The `while` loop of `StateMachine.run` (lines 124-153), fuelled.
`calls` counts how many times the current step's `run` has already been
invoked (reset to 0 whenever the index advances); it exists only to feed
the per-invocation behaviour of `StateUnit.run`. -/
def runLoop (states : List StateUnit) :
    Nat → Nat → Machine → World → Outcome × List Event
  | 0, _, m, w => (.fuelOut m w, [])
  | fuel + 1, calls, m, w =>
    if h : m.currentStateIndex < states.length then
      let state := states.get ⟨m.currentStateIndex, h⟩
      let (res, evs) := executeState state calls m.context
      let evs := evs.map (tagExec m.currentStateIndex)
      match res with
      | .error e => (.err e m w, evs)
      | .ok (result, ctx') =>
        let m1 : Machine := { m with context := ctx' }
        if result.success then
          let m2 : Machine := pushCompleted (jsShowName state.name) m1
          let (w', sevs) := saveProgress m2 w
          let m3 : Machine := advanceIndex m2
          let (out, evs') := runLoop states fuel 0 m3 w'
          (out, evs ++ sevs ++ evs')
        else if result.retry then
          let (out, evs') := runLoop states fuel (calls + 1) m1 w
          (out, evs ++ evs')
        else
          (.err (.stateFailed (jsShowName state.name)) m1 w, evs)
    else
      (.ok m w, [])

/-- The resume decision at the top of `StateMachine.run` (lines 104-121):
with `--reset`, clear any saved record; otherwise load, and if a record
exists ask the user (`resumeAnswer`) whether to resume. -/
def runPrelude (reset : Bool) (resumeAnswer : Bool) (m : Machine) (w : World) :
    Machine × World × List Event :=
  if reset then
    let (w', evs) := clearProgress w
    (m, w', evs)
  else
    match loadProgress w with
    | (some saved, levs) =>
        if resumeAnswer then (restoreProgress saved m, w, levs)
        else
          let (w', evs) := clearProgress w
          (m, w', levs ++ evs)
    | (none, levs) => (m, w, levs)

/-- `StateMachine.run()` (lines 102-157) end to end: resume decision,
the step loop, and clearing the progress file on successful completion. -/
def StateMachine.run (states : List StateUnit) (reset resumeAnswer : Bool)
    (fuel : Nat) (m : Machine) (w : World) : Outcome × List Event :=
  let (m1, w1, evs1) := runPrelude reset resumeAnswer m w
  let (out, evs2) := runLoop states fuel 0 m1 w1
  match out with
  | .ok m2 w2 =>
      let (w3, cevs) := clearProgress w2
      (.ok m2 w3, evs1 ++ evs2 ++ cevs)
  | other => (other, evs1 ++ evs2)

/-! ## The `rojoServer` step's port selection

Embedding of the port-selection phase of `rojoServer.run` (the Rojo
Server state module, lines 181-213): probe the preferred port, then the
ordered fallback list, `break`ing at the first available port; when every
port is occupied, prompt the user and return `{success: false, retry}`
without starting the server. -/

/-- `DEFAULT_PORT = 34872` (Rojo Server state module, line 116). -/
def DEFAULT_PORT : Nat := 34872

/-- `FALLBACK_PORTS = [34873, 34874, 34875, 34876]` (line 117). -/
def FALLBACK_PORTS : List Nat := [34873, 34874, 34875, 34876]

/-- The `for (const port of FALLBACK_PORTS)` loop with `break` on the
first available port.  Returns the selected port (if any) and the list of
ports actually probed, in probe order. -/
def tryFallbacks (avail : Nat → Bool) : List Nat → Option Nat × List Nat
  | [] => (none, [])
  | p :: ps =>
      if avail p then (some p, [p])
      else
        let (sel, probed) := tryFallbacks avail ps
        (sel, p :: probed)

/-- Port selection of `rojoServer.run`: probe `DEFAULT_PORT` first and
only on conflict walk the fallback list.  Returns the selected port and
every probed port in order. -/
def findRojoPort (avail : Nat → Bool) : Option Nat × List Nat :=
  if avail DEFAULT_PORT then (some DEFAULT_PORT, [DEFAULT_PORT])
  else
    let (sel, probed) := tryFallbacks avail FALLBACK_PORTS
    (sel, DEFAULT_PORT :: probed)

/-- What the port phase decides: proceed to `process.startBackground`
on the selected port, or return a step result without starting the
server. -/
inductive RojoPhase where
  | startServer (port : Nat)
  | fail (result : RunResult)

/-- The port phase of `rojoServer.run` as the engine sees it: when no
port is available, the user is asked `'Try again?'` (default `true`) and
the step returns `{success: false, retry: answer}`; otherwise execution
proceeds to starting the server on the selected port. -/
def rojoPortPhase (avail : Nat → Bool) (retryAnswer : Bool) :
    RojoPhase × List Nat :=
  let (sel, probed) := findRojoPort avail
  match sel with
  | some p => (.startServer p, probed)
  | none => (.fail { success := false, retry := retryAnswer }, probed)

/-! ## Projections and basic facts -/

/-- The machine carried by an outcome. -/
def Outcome.machine : Outcome → Machine
  | .ok m _ => m
  | .err _ m _ => m
  | .fuelOut m _ => m

/-- The world carried by an outcome. -/
def Outcome.world : Outcome → World
  | .ok _ w => w
  | .err _ _ w => w
  | .fuelOut _ w => w

/-- Whether the outcome is a normal return. -/
def Outcome.isOk : Outcome → Bool
  | .ok _ _ => true
  | _ => false

/-- The parsed record held by the progress file, if any. -/
def fileRecord : FileState → Option ProgressRecord
  | .record r => some r
  | _ => none

/-- A step whose `run` never simultaneously reports failure and asks for
a retry, whatever the invocation count and the context. -/
def stepNeverRetries (states : List StateUnit) (i : Nat) : Prop :=
  ∀ state, states.get? i = some state → ∀ run, state.run = some run →
    ∀ c ctx, (run c ctx).success = true ∨ (run c ctx).retry = false

/-- The probe order of the `rojoServer` port selection: preferred port
first, then the fallbacks. -/
def rojoPorts : List Nat := DEFAULT_PORT :: FALLBACK_PORTS

/-! ## Concrete scenario material -/

/-- A world with no saved progress and a working file system. -/
def scenarioWorld : World := { file := .absent, writeFails := false, now := "t0" }

/-- Scenario C of the specification: a step whose `run` asks for a retry
twice and then succeeds. -/
def retryTwiceStep : StateUnit :=
  { name := some "server",
    run := some fun calls _ =>
      if calls < 2 then { success := false, retry := true } else { success := true } }

/-- A step that fails, asks for a retry, and reports `data` alongside the
failure. -/
def failingDataStep : StateUnit :=
  { name := some "s",
    run := some fun _ _ =>
      { success := false, retry := true, data := some [("a", JsVal.num 1)] } }

/-- A step whose `check` reports `found && canSkip`; its `run` would fail
if it were ever invoked. -/
def skipStep : StateUnit :=
  { name := some "toolA",
    check := some fun _ => { found := true, canSkip := true },
    run := some fun _ _ => { success := false } }

/-- A step that succeeds immediately. -/
def okStep (nm : String) : StateUnit :=
  { name := some nm, run := some fun _ _ => { success := true } }

/-- A step that fails fatally (`success: false`, no retry). -/
def failStep : StateUnit :=
  { name := some "boom", run := some fun _ _ => { success := false } }

/-! ## Inversion lemmas for `executeState` -/

/-- `executeState` throws exactly when the state is invalid, and then no
hook has been invoked. -/
lemma executeState_invalid (state : StateUnit) (calls : Nat) (ctx : Ctx)
    (h : jsTruthyName state.name = false ∨ state.run = none) :
    executeState state calls ctx = (.error .invalidState, []) := by
  rcases h with h | h
  · unfold executeState
    cases hr : state.run with
    | none => rfl
    | some run => simp [h]
  · unfold executeState
    rw [h]

/-- `executeState` on a skippable state: `run` is bypassed. -/
lemma executeState_skips (state : StateUnit) (calls : Nat) (ctx : Ctx)
    (run : Nat → Ctx → RunResult) (check : Ctx → CheckResult)
    (hr : state.run = some run) (hn : jsTruthyName state.name = true)
    (hc : state.check = some check)
    (hs : ((check ctx).found && (check ctx).canSkip) = true) :
    executeState state calls ctx =
      (.ok ({ success := true, skip := true }, ctx), [.checkCalled, .skipped]) := by
  unfold executeState
  rw [hr, hn, hc]
  simp [hs]

/-- `executeState` on a non-skippable valid state: `run` is invoked and
its `data` (if any) is merged — regardless of the `success` flag. -/
lemma executeState_runs (state : StateUnit) (calls : Nat) (ctx : Ctx)
    (run : Nat → Ctx → RunResult)
    (hr : state.run = some run) (hn : jsTruthyName state.name = true)
    (hnoskip : ∀ check, state.check = some check →
      ((check ctx).found && (check ctx).canSkip) = false) :
    executeState state calls ctx =
      (.ok (run calls ctx, mergeData ctx (run calls ctx).data),
       if state.check.isSome then [.checkCalled, .runCalled] else [.runCalled]) := by
  unfold executeState
  rw [hr, hn]
  cases hc : state.check with
  | none => simp
  | some check => simp [hnoskip check hc]

/-- Inversion: a successful `executeState` came either from the skip
branch or from invoking `run`. -/
lemma executeState_ok_elim (state : StateUnit) (calls : Nat) (ctx : Ctx)
    (r : RunResult) (ctx' : Ctx) (evs : List ExecEvent)
    (h : executeState state calls ctx = (.ok (r, ctx'), evs)) :
    jsTruthyName state.name = true ∧
    ∃ run, state.run = some run ∧
      ((r = { success := true, skip := true } ∧ ctx' = ctx ∧
          evs = [.checkCalled, .skipped]) ∨
       (r = run calls ctx ∧ ctx' = mergeData ctx r.data ∧
          (evs = [.checkCalled, .runCalled] ∨ evs = [.runCalled]))) := by
  by_cases hn : jsTruthyName state.name = false
  · rw [executeState_invalid state calls ctx (Or.inl hn)] at h
    exact absurd h (by simp)
  cases hr : state.run with
  | none =>
      rw [executeState_invalid state calls ctx (Or.inr hr)] at h
      exact absurd h (by simp)
  | some run =>
    have hn' : jsTruthyName state.name = true := by simpa using hn
    refine ⟨hn', run, rfl, ?_⟩
    cases hc : state.check with
    | none =>
        rw [executeState_runs state calls ctx run hr hn'
          (fun c hcc => by rw [hc] at hcc; cases hcc)] at h
        rw [hc] at h
        simp only [Option.isSome_none, Bool.false_eq_true, if_false,
          Prod.mk.injEq, Except.ok.injEq] at h
        obtain ⟨⟨h1, h2⟩, h3⟩ := h
        exact Or.inr ⟨h1.symm, by rw [← h2, h1], Or.inr h3.symm⟩
    | some check =>
        by_cases hs : ((check ctx).found && (check ctx).canSkip) = true
        · rw [executeState_skips state calls ctx run check hr hn' hc hs] at h
          simp only [Prod.mk.injEq, Except.ok.injEq] at h
          obtain ⟨⟨h1, h2⟩, h3⟩ := h
          exact Or.inl ⟨h1.symm, h2.symm, h3.symm⟩
        · rw [executeState_runs state calls ctx run hr hn'
            (fun c hcc => by
              rw [hc] at hcc
              injection hcc with e
              rw [← e]
              exact Bool.eq_false_iff.mpr hs)] at h
          rw [hc] at h
          simp only [Option.isSome_some, if_true, Prod.mk.injEq, Except.ok.injEq] at h
          obtain ⟨⟨h1, h2⟩, h3⟩ := h
          exact Or.inr ⟨h1.symm, by rw [← h2, h1], Or.inl h3.symm⟩

/-! ## Unfolding lemmas for one iteration of the engine loop -/

/-- With the index past the end, the loop returns normally at once. -/
lemma runLoop_done (states : List StateUnit) (fuel calls : Nat) (m : Machine)
    (w : World) (h : ¬ m.currentStateIndex < states.length) :
    runLoop states (fuel + 1) calls m w = (.ok m w, []) := by
  conv_lhs => rw [runLoop]
  rw [dif_neg h]

/-- An iteration whose `executeState` throws: the error propagates, the
machine and the world are untouched. -/
lemma runLoop_throw (states : List StateUnit) (fuel calls : Nat) (m : Machine)
    (w : World) (h : m.currentStateIndex < states.length)
    (e : EngineError) (evs : List ExecEvent)
    (hexec : executeState (states.get ⟨m.currentStateIndex, h⟩) calls m.context =
      (.error e, evs)) :
    runLoop states (fuel + 1) calls m w =
      (.err e m w, evs.map (tagExec m.currentStateIndex)) := by
  conv_lhs => rw [runLoop]
  simp only [dif_pos h, hexec]

/-- An iteration whose step succeeds: name recorded, progress saved,
index advanced, loop continues. -/
lemma runLoop_success (states : List StateUnit) (fuel calls : Nat) (m : Machine)
    (w : World) (h : m.currentStateIndex < states.length)
    (r : RunResult) (ctx' : Ctx) (evs : List ExecEvent)
    (hexec : executeState (states.get ⟨m.currentStateIndex, h⟩) calls m.context =
      (.ok (r, ctx'), evs))
    (hs : r.success = true) :
    runLoop states (fuel + 1) calls m w =
      ((runLoop states fuel 0
          (advanceIndex (pushCompleted
            (jsShowName (states.get ⟨m.currentStateIndex, h⟩).name)
            { m with context := ctx' }))
          (saveProgress (pushCompleted
            (jsShowName (states.get ⟨m.currentStateIndex, h⟩).name)
            { m with context := ctx' }) w).1).1,
       evs.map (tagExec m.currentStateIndex) ++
         (saveProgress (pushCompleted
            (jsShowName (states.get ⟨m.currentStateIndex, h⟩).name)
            { m with context := ctx' }) w).2 ++
         (runLoop states fuel 0
          (advanceIndex (pushCompleted
            (jsShowName (states.get ⟨m.currentStateIndex, h⟩).name)
            { m with context := ctx' }))
          (saveProgress (pushCompleted
            (jsShowName (states.get ⟨m.currentStateIndex, h⟩).name)
            { m with context := ctx' }) w).1).2) := by
  conv_lhs => rw [runLoop]
  simp only [dif_pos h, hexec, hs, if_true]

/-- An iteration whose step asks for a retry: same index, same world (in
particular nothing persisted), the loop re-enters at the same step with
only the context possibly updated. -/
lemma runLoop_retry (states : List StateUnit) (fuel calls : Nat) (m : Machine)
    (w : World) (h : m.currentStateIndex < states.length)
    (r : RunResult) (ctx' : Ctx) (evs : List ExecEvent)
    (hexec : executeState (states.get ⟨m.currentStateIndex, h⟩) calls m.context =
      (.ok (r, ctx'), evs))
    (hs : r.success = false) (hret : r.retry = true) :
    runLoop states (fuel + 1) calls m w =
      ((runLoop states fuel (calls + 1) { m with context := ctx' } w).1,
       evs.map (tagExec m.currentStateIndex) ++
         (runLoop states fuel (calls + 1) { m with context := ctx' } w).2) := by
  conv_lhs => rw [runLoop]
  simp only [dif_pos h, hexec, hs, hret, Bool.false_eq_true, if_false, if_true]

/-- An iteration whose step fails without retry: the loop aborts with a
`stateFailed` error carrying the step's name; the world is untouched. -/
lemma runLoop_fatal (states : List StateUnit) (fuel calls : Nat) (m : Machine)
    (w : World) (h : m.currentStateIndex < states.length)
    (r : RunResult) (ctx' : Ctx) (evs : List ExecEvent)
    (hexec : executeState (states.get ⟨m.currentStateIndex, h⟩) calls m.context =
      (.ok (r, ctx'), evs))
    (hs : r.success = false) (hret : r.retry = false) :
    runLoop states (fuel + 1) calls m w =
      (.err (.stateFailed (jsShowName (states.get ⟨m.currentStateIndex, h⟩).name))
        { m with context := ctx' } w,
       evs.map (tagExec m.currentStateIndex)) := by
  conv_lhs => rw [runLoop]
  simp only [dif_pos h, hexec, hs, hret, Bool.false_eq_true, if_false]

/-! ## Trace lemmas -/

/-- The event lists `executeState` can produce. -/
lemma executeState_evs (state : StateUnit) (calls : Nat) (ctx : Ctx) :
    (executeState state calls ctx).2 = [] ∨
    (executeState state calls ctx).2 = [.runCalled] ∨
    (executeState state calls ctx).2 = [.checkCalled, .skipped] ∨
    (executeState state calls ctx).2 = [.checkCalled, .runCalled] := by
  unfold executeState
  cases state.run with
  | none => simp
  | some run =>
    by_cases hn : jsTruthyName state.name = false
    · simp [hn]
    · cases hc : state.check with
      | none => simp [hn]
      | some check =>
        by_cases hs : ((check ctx).found && (check ctx).canSkip) = true <;>
          simp [hn, hs]

/-- A tagged exec event equal to `runCalled i` forces `i` to be the tag. -/
lemma tagExec_runCalled (idx i : Nat) (e : ExecEvent)
    (h : tagExec idx e = .runCalled i) : i = idx := by
  cases e <;> first
  | (simp [tagExec] at h; omega)
  | simp [tagExec] at h

/-- `saveProgress` emits exactly one file event, never a hook event. -/
lemma saveProgress_evs (m : Machine) (w : World) :
    (saveProgress m w).2 = [.saved] ∨ (saveProgress m w).2 = [.saveWarned] := by
  by_cases hw : w.writeFails <;> simp [saveProgress, hw]

/-- `pushCompleted` only touches `completedStates`. -/
lemma pushCompleted_currentStateIndex (nm : String) (m : Machine) :
    (pushCompleted nm m).currentStateIndex = m.currentStateIndex := by
  unfold pushCompleted; split <;> rfl

/-- `pushCompleted` only touches `completedStates`. -/
lemma pushCompleted_context (nm : String) (m : Machine) :
    (pushCompleted nm m).context = m.context := by
  unfold pushCompleted; split <;> rfl

/-- `advanceIndex` bumps the index by one. -/
lemma advanceIndex_currentStateIndex (m : Machine) :
    (advanceIndex m).currentStateIndex = m.currentStateIndex + 1 := rfl

/-- `runCalled i` never appears in the tagged events of a step at a
different index. -/
lemma count_tagExec_ne (idx i : Nat) (evs : List ExecEvent) (hne : i ≠ idx) :
    (evs.map (tagExec idx)).count (Event.runCalled i) = 0 := by
  rw [List.count_eq_zero]
  intro hmem
  obtain ⟨e, _, htag⟩ := List.mem_map.mp hmem
  exact hne (tagExec_runCalled idx i e htag)

/-- One `executeState` call invokes `run` at most once. -/
lemma count_tagExec_le_one (state : StateUnit) (calls : Nat) (ctx : Ctx) (idx i : Nat) :
    (((executeState state calls ctx).2).map (tagExec idx)).count (Event.runCalled i) ≤ 1 := by
  rcases executeState_evs state calls ctx with h | h | h | h <;>
    rw [h] <;> simp [tagExec, List.count_cons] <;> split <;> simp

/-- Every `runCalled` event in a loop trace carries an index at least the
starting index: the loop never revisits an earlier step. -/
lemma runLoop_runCalled_ge (states : List StateUnit) :
    ∀ fuel calls (m : Machine) (w : World) i,
      Event.runCalled i ∈ (runLoop states fuel calls m w).2 →
      m.currentStateIndex ≤ i := by
  intro fuel
  induction fuel with
  | zero =>
    intro calls m w i hmem
    simp [runLoop] at hmem
  | succ fuel ih =>
    intro calls m w i hmem
    by_cases h : m.currentStateIndex < states.length
    · rcases hre : executeState (states.get ⟨m.currentStateIndex, h⟩) calls m.context
        with ⟨res, evs⟩
      cases res with
      | error e =>
        rw [runLoop_throw states fuel calls m w h e evs hre] at hmem
        obtain ⟨ev, _, htag⟩ := List.mem_map.mp hmem
        exact le_of_eq (tagExec_runCalled _ _ _ htag).symm
      | ok p =>
        rcases p with ⟨r, ctx'⟩
        by_cases hs : r.success = true
        · rw [runLoop_success states fuel calls m w h r ctx' evs hre hs] at hmem
          simp only [List.mem_append] at hmem
          rcases hmem with (hmem | hmem) | hmem
          · obtain ⟨ev, _, htag⟩ := List.mem_map.mp hmem
            exact le_of_eq (tagExec_runCalled _ _ _ htag).symm
          · rcases saveProgress_evs
              (pushCompleted (jsShowName (states.get ⟨m.currentStateIndex, h⟩).name)
                { m with context := ctx' }) w with hsv | hsv <;>
              rw [hsv] at hmem <;> simp at hmem
          · have h2 := ih 0 _ _ i hmem
            simp only [advanceIndex_currentStateIndex,
              pushCompleted_currentStateIndex] at h2
            omega
        · have hs' : r.success = false := by simpa using hs
          by_cases hret : r.retry = true
          · rw [runLoop_retry states fuel calls m w h r ctx' evs hre hs' hret] at hmem
            simp only [List.mem_append] at hmem
            rcases hmem with hmem | hmem
            · obtain ⟨ev, _, htag⟩ := List.mem_map.mp hmem
              exact le_of_eq (tagExec_runCalled _ _ _ htag).symm
            · have h2 := ih (calls + 1) { m with context := ctx' } w i hmem
              simpa using h2
          · have hret' : r.retry = false := by simpa using hret
            rw [runLoop_fatal states fuel calls m w h r ctx' evs hre hs' hret'] at hmem
            obtain ⟨ev, _, htag⟩ := List.mem_map.mp hmem
            exact le_of_eq (tagExec_runCalled _ _ _ htag).symm
    · rw [runLoop_done states fuel calls m w h] at hmem
      simp at hmem


/-- A step that never asks for a retry has its `run` invoked at most once
in any engine run: the retry path is the only source of repetition. -/
lemma runLoop_runCalled_le_one (states : List StateUnit) (i : Nat)
    (hnr : stepNeverRetries states i) :
    ∀ fuel calls (m : Machine) (w : World),
      ((runLoop states fuel calls m w).2.count (Event.runCalled i)) ≤ 1 := by
  intro fuel
  induction fuel with
  | zero =>
    intro calls m w
    simp [runLoop]
  | succ fuel ih =>
    intro calls m w
    by_cases h : m.currentStateIndex < states.length
    · rcases hre : executeState (states.get ⟨m.currentStateIndex, h⟩) calls m.context
        with ⟨res, evs⟩
      cases res with
      | error e =>
        rw [runLoop_throw states fuel calls m w h e evs hre]
        have := count_tagExec_le_one (states.get ⟨m.currentStateIndex, h⟩)
          calls m.context m.currentStateIndex i
        rw [hre] at this
        exact this
      | ok p =>
        rcases p with ⟨r, ctx'⟩
        have hevs : (executeState (states.get ⟨m.currentStateIndex, h⟩)
            calls m.context).2 = evs := by rw [hre]
        by_cases hs : r.success = true
        · rw [runLoop_success states fuel calls m w h r ctx' evs hre hs]
          simp only [List.count_append]
          have h1 : (evs.map (tagExec m.currentStateIndex)).count (Event.runCalled i) ≤ 1 := by
            have := count_tagExec_le_one (states.get ⟨m.currentStateIndex, h⟩)
              calls m.context m.currentStateIndex i
            rwa [hevs] at this
          have h2 : ((saveProgress
              (pushCompleted (jsShowName (states.get ⟨m.currentStateIndex, h⟩).name)
                { m with context := ctx' }) w).2).count (Event.runCalled i) = 0 := by
            rcases saveProgress_evs
              (pushCompleted (jsShowName (states.get ⟨m.currentStateIndex, h⟩).name)
                { m with context := ctx' }) w with hsv | hsv <;> rw [hsv] <;> rfl
          by_cases hii : i = m.currentStateIndex
          · have h3 : ((runLoop states fuel 0
                (advanceIndex (pushCompleted
                  (jsShowName (states.get ⟨m.currentStateIndex, h⟩).name)
                  { m with context := ctx' }))
                (saveProgress
                  (pushCompleted (jsShowName (states.get ⟨m.currentStateIndex, h⟩).name)
                    { m with context := ctx' }) w).1).2).count (Event.runCalled i) = 0 := by
              rw [List.count_eq_zero]
              intro hmem
              have h4 := runLoop_runCalled_ge states fuel 0 _ _ i hmem
              simp only [advanceIndex_currentStateIndex,
                pushCompleted_currentStateIndex] at h4
              omega
            omega
          · have h0 : (evs.map (tagExec m.currentStateIndex)).count (Event.runCalled i) = 0 :=
              count_tagExec_ne m.currentStateIndex i evs hii
            have h3 := ih 0
              (advanceIndex (pushCompleted
                (jsShowName (states.get ⟨m.currentStateIndex, h⟩).name)
                { m with context := ctx' }))
              (saveProgress
                (pushCompleted (jsShowName (states.get ⟨m.currentStateIndex, h⟩).name)
                  { m with context := ctx' }) w).1
            omega
        · have hs' : r.success = false := by simpa using hs
          by_cases hret : r.retry = true
          · rw [runLoop_retry states fuel calls m w h r ctx' evs hre hs' hret]
            simp only [List.count_append]
            by_cases hii : i = m.currentStateIndex
            · exfalso
              obtain ⟨-, run, hrun, hcase⟩ :=
                executeState_ok_elim (states.get ⟨m.currentStateIndex, h⟩)
                  calls m.context r ctx' evs hre
              rcases hcase with ⟨hr1, -, -⟩ | ⟨hr1, -, -⟩
              · rw [hr1] at hs'; simp at hs'
              · have hget : states.get? i = some (states.get ⟨m.currentStateIndex, h⟩) := by
                  rw [hii]
                  exact List.get?_eq_get h
                rcases hnr _ hget run hrun calls m.context with hc | hc
                · rw [hr1] at hs'; rw [hs'] at hc; cases hc
                · rw [hr1] at hret; rw [hret] at hc; cases hc
            · have h0 : (evs.map (tagExec m.currentStateIndex)).count (Event.runCalled i) = 0 :=
                count_tagExec_ne m.currentStateIndex i evs hii
              have h3 := ih (calls + 1) { m with context := ctx' } w
              omega
          · have hret' : r.retry = false := by simpa using hret
            rw [runLoop_fatal states fuel calls m w h r ctx' evs hre hs' hret']
            have := count_tagExec_le_one (states.get ⟨m.currentStateIndex, h⟩)
              calls m.context m.currentStateIndex i
            rwa [hevs] at this
    · rw [runLoop_done states fuel calls m w h]
      simp

/-! ## Claim C1 — data merge and the success flag -/

/-- **C1, counterexample.**  The claim states that a step's `data` is
merged into the Context only when `success` is true, and that on
`success: false` every key is unchanged.  The code (`executeState`,
lines 182-184) merges on mere presence of `data`: a step returning
`{success: false, retry: true, data: {a: 1}}` on the empty context leaves
the context with `a = 1` even though the key was absent before the call. -/
theorem c1_counterexample :
    (executeState failingDataStep 0 []).1 =
      .ok ({ success := false, retry := true, data := some [("a", JsVal.num 1)] },
        [("a", JsVal.num 1)]) ∧
    oget ([] : Ctx) "a" = none ∧
    oget [("a", JsVal.num 1)] "a" = some (JsVal.num 1) :=
  ⟨rfl, rfl, rfl⟩

/-- **C1, amended.**  For every step whose `run` is invoked (valid state,
not skipped), the returned `data`, when present, is shallow-merged into
the Context regardless of the `success` flag, and when `data` is absent
the Context is unchanged (`mergeData`); the step's result is returned
as-is. -/
theorem c1_data_merge_unconditional (state : StateUnit)
    (run : Nat → Ctx → RunResult) (calls : Nat) (ctx : Ctx)
    (hrun : state.run = some run) (hname : jsTruthyName state.name = true)
    (hnoskip : ∀ check, state.check = some check →
      ((check ctx).found && (check ctx).canSkip) = false) :
    executeState state calls ctx =
      (.ok (run calls ctx, mergeData ctx (run calls ctx).data),
       if state.check.isSome then [.checkCalled, .runCalled] else [.runCalled]) :=
  executeState_runs state calls ctx run hrun hname hnoskip

/-- Witness for the amended C1 theorem at a concrete failing step. -/
theorem c1_data_merge_unconditional_witness :
    executeState failingDataStep 0 [] =
      (.ok ({ success := false, retry := true, data := some [("a", JsVal.num 1)] },
        [("a", JsVal.num 1)]),
       [ExecEvent.runCalled]) := by
  have h := c1_data_merge_unconditional failingDataStep
    (fun _ _ => { success := false, retry := true, data := some [("a", JsVal.num 1)] })
    0 [] rfl rfl (fun check hc => Option.noConfusion hc)
  exact h.trans rfl

/-! ## Claim C8 — the initial Context -/

/-- **C8, counterexample.**  The claim states the Context is empty at
engine construction, with no keys present before the first step.  The
constructor (lines 27-32) installs four keys; in particular
`installedTools` is present (bound to `{}`). -/
theorem c8_counterexample :
    Machine.new.context ≠ [] ∧
    oget Machine.new.context "installedTools" = some (JsVal.obj []) := by
  refine ⟨?_, rfl⟩
  simp [Machine.new, initialContext]

/-- **C8, amended.**  At construction the Context holds exactly the four
fixed keys `installedTools: {}`, `userChoices: {}`, `os: null`,
`projectName: null` (index 0, no completed states); when no saved record
exists the engine proceeds with this machine unchanged, and when the user
declines to resume the engine clears the stale record and proceeds with
the machine unchanged — in both cases the run starts at index 0 with the
constructor's Context. -/
theorem c8_initial_context :
    (Machine.new.currentStateIndex = 0 ∧ Machine.new.completedStates = [] ∧
     Machine.new.context =
       [("installedTools", JsVal.obj []), ("userChoices", JsVal.obj []),
        ("os", JsVal.null), ("projectName", JsVal.null)]) ∧
    (∀ (ans : Bool) (m : Machine) (w : World), w.file = .absent →
      runPrelude false ans m w = (m, w, [])) ∧
    (∀ (m : Machine) (w : World) (r : ProgressRecord), w.file = .record r →
      runPrelude false false m w = (m, { w with file := .absent }, [.cleared])) := by
  refine ⟨⟨rfl, rfl, rfl⟩, ?_, ?_⟩
  · intro ans m w hw
    unfold runPrelude loadProgress
    rw [hw]
    rfl
  · intro m w r hw
    unfold runPrelude loadProgress clearProgress
    rw [hw]
    rfl

/-- Witness for the amended C8 theorem: a fresh-start and a declined
resume at concrete worlds. -/
theorem c8_initial_context_witness :
    runPrelude false true Machine.new scenarioWorld = (Machine.new, scenarioWorld, []) ∧
    runPrelude false false Machine.new
        { file := FileState.record ⟨"1.0.0", "t", 3, ["a"], []⟩,
          writeFails := false, now := "t" } =
      (Machine.new,
       { file := .absent, writeFails := false, now := "t" }, [.cleared]) := by
  constructor
  · exact c8_initial_context.2.1 true Machine.new scenarioWorld rfl
  · exact c8_initial_context.2.2 Machine.new
      { file := FileState.record ⟨"1.0.0", "t", 3, ["a"], []⟩,
        writeFails := false, now := "t" } ⟨"1.0.0", "t", 3, ["a"], []⟩ rfl

/-! ## Claim C10 — state validation -/

/-- **C10.**  `executeState` throws `'Invalid state: must have name and
run function'` exactly for states with a falsy `name` or no `run`, before
invoking `check` or `run` (the event trace of the throwing call is
empty); for states with a truthy name and a `run` function this
validation never throws — the call returns a result. -/
theorem c10_state_validation (state : StateUnit) (calls : Nat) (ctx : Ctx) :
    (executeState state calls ctx = (.error .invalidState, []) ↔
      (jsTruthyName state.name = false ∨ state.run = none)) ∧
    (jsTruthyName state.name = true → state.run ≠ none →
      ∃ r ctx', (executeState state calls ctx).1 = .ok (r, ctx')) := by
  have hok : jsTruthyName state.name = true → ∀ run, state.run = some run →
      ∃ r ctx', (executeState state calls ctx).1 = .ok (r, ctx') := by
    intro hn run hr
    cases hc : state.check with
    | none =>
      rw [executeState_runs state calls ctx run hr hn
        (fun c hcc => by rw [hc] at hcc; cases hcc)]
      exact ⟨_, _, rfl⟩
    | some check =>
      by_cases hs : ((check ctx).found && (check ctx).canSkip) = true
      · rw [executeState_skips state calls ctx run check hr hn hc hs]
        exact ⟨_, _, rfl⟩
      · rw [executeState_runs state calls ctx run hr hn
          (fun c hcc => by
            rw [hc] at hcc
            injection hcc with e
            rw [← e]
            exact Bool.eq_false_iff.mpr hs)]
        exact ⟨_, _, rfl⟩
  constructor
  · constructor
    · intro h
      by_cases hn : jsTruthyName state.name = false
      · exact Or.inl hn
      cases hr : state.run with
      | none => exact Or.inr rfl
      | some run =>
        obtain ⟨r, ctx', hres⟩ := hok (by simpa using hn) run hr
        rw [h] at hres
        exact absurd hres (by simp)
    · exact executeState_invalid state calls ctx
  · intro hn hr
    obtain ⟨run, hrun⟩ := Option.ne_none_iff_exists'.mp hr
    exact hok hn run hrun

/-- Witness for C10: an invalid state throws, a valid one returns. -/
theorem c10_state_validation_witness :
    (executeState { name := none, run := some fun _ _ => { success := true } } 0 [] =
      (.error .invalidState, [])) ∧
    ∃ r ctx',
      (executeState { name := some "ok", run := some fun _ _ => { success := true } }
        0 []).1 = .ok (r, ctx') := by
  constructor
  · exact (c10_state_validation _ 0 []).1.mpr (Or.inl rfl)
  · exact (c10_state_validation _ 0 []).2 rfl (by simp)

/-! ## Claim C3 — skippable steps -/

/-- **C3.**  When a step's `check` reports `found && canSkip`, its `run`
is never invoked (no `runCalled` event for this index in the whole
remaining trace), yet the loop proceeds exactly as for an executed
successful step: the name is appended via `pushCompleted`, progress is
saved, and the index advances by one. -/
theorem c3_skip_bypasses_run (states : List StateUnit) (fuel calls : Nat)
    (m : Machine) (w : World)
    (run : Nat → Ctx → RunResult) (check : Ctx → CheckResult)
    (h : m.currentStateIndex < states.length)
    (hrun : (states.get ⟨m.currentStateIndex, h⟩).run = some run)
    (hname : jsTruthyName (states.get ⟨m.currentStateIndex, h⟩).name = true)
    (hcheck : (states.get ⟨m.currentStateIndex, h⟩).check = some check)
    (hskip : ((check m.context).found && (check m.context).canSkip) = true) :
    runLoop states (fuel + 1) calls m w =
      ((runLoop states fuel 0
          (advanceIndex (pushCompleted
            (jsShowName (states.get ⟨m.currentStateIndex, h⟩).name)
            { m with context := m.context }))
          (saveProgress (pushCompleted
            (jsShowName (states.get ⟨m.currentStateIndex, h⟩).name)
            { m with context := m.context }) w).1).1,
       [Event.checkCalled m.currentStateIndex, Event.skipped m.currentStateIndex] ++
         (saveProgress (pushCompleted
            (jsShowName (states.get ⟨m.currentStateIndex, h⟩).name)
            { m with context := m.context }) w).2 ++
         (runLoop states fuel 0
          (advanceIndex (pushCompleted
            (jsShowName (states.get ⟨m.currentStateIndex, h⟩).name)
            { m with context := m.context }))
          (saveProgress (pushCompleted
            (jsShowName (states.get ⟨m.currentStateIndex, h⟩).name)
            { m with context := m.context }) w).1).2) ∧
    (runLoop states (fuel + 1) calls m w).2.count
      (Event.runCalled m.currentStateIndex) = 0 := by
  have hexec := executeState_skips (states.get ⟨m.currentStateIndex, h⟩)
    calls m.context run check hrun hname hcheck hskip
  have h1 := runLoop_success states fuel calls m w h
    { success := true, skip := true } m.context [.checkCalled, .skipped] hexec rfl
  refine ⟨h1, ?_⟩
  rw [h1]
  simp only [List.count_append]
  have e1 : ((List.map (tagExec m.currentStateIndex)
      [ExecEvent.checkCalled, ExecEvent.skipped]).count
      (Event.runCalled m.currentStateIndex)) = 0 := by
    simp [tagExec]
  have e2 : ((saveProgress (pushCompleted
      (jsShowName (states.get ⟨m.currentStateIndex, h⟩).name)
      { m with context := m.context }) w).2).count
      (Event.runCalled m.currentStateIndex) = 0 := by
    rcases saveProgress_evs (pushCompleted
      (jsShowName (states.get ⟨m.currentStateIndex, h⟩).name)
      { m with context := m.context }) w with hsv | hsv <;> rw [hsv] <;> rfl
  have e3 : ((runLoop states fuel 0
      (advanceIndex (pushCompleted
        (jsShowName (states.get ⟨m.currentStateIndex, h⟩).name)
        { m with context := m.context }))
      (saveProgress (pushCompleted
        (jsShowName (states.get ⟨m.currentStateIndex, h⟩).name)
        { m with context := m.context }) w).1).2).count
      (Event.runCalled m.currentStateIndex) = 0 := by
    rw [List.count_eq_zero]
    intro hmem
    have h4 := runLoop_runCalled_ge states fuel 0 _ _ _ hmem
    simp only [advanceIndex_currentStateIndex, pushCompleted_currentStateIndex] at h4
    omega
  omega

/-- Witness for C3: the skippable step's `run` is never invoked in a
concrete run. -/
theorem c3_skip_bypasses_run_witness :
    (runLoop [skipStep] 2 0 Machine.new scenarioWorld).2.count (Event.runCalled 0) = 0 :=
  (c3_skip_bypasses_run [skipStep] 1 0 Machine.new scenarioWorld
    (fun _ _ => { success := false }) (fun _ => { found := true, canSkip := true })
    (by decide) rfl rfl rfl rfl).2

/-! ## Claim C4 — fatal failure aborts and preserves the record -/

/-- **C4.**  A step result with `success: false` and no `retry` aborts
the pipeline: the loop stops at once with a `stateFailed` error (its
trace contains only this step's own hook events, so no later step
executes), the world — and hence the persisted Progress Record — is
returned untouched; `StateMachine.run` propagates the error to the
caller without clearing the record.  In the concrete scenario
`[s1 ok, boom fatal, s3 ok]` the run fails with `State boom failed`,
step 3's `run` is never invoked, and the surviving record still lists
`completedStates = ["s1"]` — completion through step K-1. -/
theorem c4_fatal_abort :
    (∀ (states : List StateUnit) (fuel calls : Nat) (m : Machine) (w : World)
        (r : RunResult) (ctx' : Ctx) (evs : List ExecEvent)
        (h : m.currentStateIndex < states.length),
        executeState (states.get ⟨m.currentStateIndex, h⟩) calls m.context =
          (.ok (r, ctx'), evs) →
        r.success = false → r.retry = false →
        runLoop states (fuel + 1) calls m w =
          (.err (.stateFailed (jsShowName (states.get ⟨m.currentStateIndex, h⟩).name))
            { m with context := ctx' } w,
           evs.map (tagExec m.currentStateIndex))) ∧
    (∀ (states : List StateUnit) (reset ans : Bool) (fuel : Nat)
        (m : Machine) (w : World) (e : EngineError) (m2 : Machine) (w2 : World),
        (runLoop states fuel 0 (runPrelude reset ans m w).1
          (runPrelude reset ans m w).2.1).1 = .err e m2 w2 →
        (StateMachine.run states reset ans fuel m w).1 = .err e m2 w2) ∧
    ((StateMachine.run [okStep "s1", failStep, okStep "s3"] false false 10
        Machine.new scenarioWorld).1 =
      .err (.stateFailed "boom")
        { context := initialContext, currentStateIndex := 1, completedStates := ["s1"] }
        { file := FileState.record ⟨"1.0.0", "t0", 0, ["s1"], initialContext⟩,
          writeFails := false, now := "t0" } ∧
     (StateMachine.run [okStep "s1", failStep, okStep "s3"] false false 10
        Machine.new scenarioWorld).2.count (Event.runCalled 2) = 0) := by
  refine ⟨?_, ?_, rfl, rfl⟩
  · intro states fuel calls m w r ctx' evs h hexec hs hret
    exact runLoop_fatal states fuel calls m w h r ctx' evs hexec hs hret
  · intro states reset ans fuel m w e m2 w2 hloop
    rcases hp : runPrelude reset ans m w with ⟨m1, w1, evs1⟩
    rw [hp] at hloop
    simp only at hloop
    rcases hl : runLoop states fuel 0 m1 w1 with ⟨out, evs2⟩
    rw [hl] at hloop
    simp only at hloop
    subst hloop
    unfold StateMachine.run
    rw [hp]
    dsimp only
    rw [hl]

/-- Witness for C4's universal parts at a concrete fatal step. -/
theorem c4_fatal_abort_witness :
    runLoop [failStep] 3 0 Machine.new scenarioWorld =
      (.err (.stateFailed "boom") Machine.new scenarioWorld, [Event.runCalled 0]) ∧
    (StateMachine.run [failStep] false false 3 Machine.new scenarioWorld).1 =
      .err (.stateFailed "boom") Machine.new scenarioWorld := by
  constructor
  · have h := c4_fatal_abort.1 [failStep] 2 0 Machine.new scenarioWorld
      { success := false } initialContext [.runCalled] (by decide) rfl rfl rfl
    exact h.trans rfl
  · exact c4_fatal_abort.2.1 [failStep] false false 3 Machine.new scenarioWorld
      (.stateFailed "boom") Machine.new scenarioWorld rfl

/-! ## Claim C5 — clean completion clears the record -/

/-- **C5.**  Whenever `StateMachine.run` returns normally (which happens
exactly when every step completed, each either skipped via `check` or
returning `success: true`), the progress file has been deleted: the
returned world's file is absent and a subsequent `loadProgress` reports
no record. -/
theorem c5_completion_clears_progress (states : List StateUnit)
    (reset ans : Bool) (fuel : Nat) (m m' : Machine) (w w' : World)
    (hrun : (StateMachine.run states reset ans fuel m w).1 = .ok m' w') :
    w'.file = .absent ∧ (loadProgress w').1 = none := by
  suffices hfile : w'.file = .absent by
    refine ⟨hfile, ?_⟩
    unfold loadProgress
    rw [hfile]
  unfold StateMachine.run at hrun
  rcases hp : runPrelude reset ans m w with ⟨m1, w1, evs1⟩
  rw [hp] at hrun
  dsimp only at hrun
  rcases hl : runLoop states fuel 0 m1 w1 with ⟨out, evs2⟩
  rw [hl] at hrun
  dsimp only at hrun
  cases out with
  | ok m2 w2 =>
    unfold clearProgress at hrun
    dsimp only at hrun
    injection hrun with h1 h2
    rw [← h2]
  | err e m2 w2 => exact absurd hrun (by simp)
  | fuelOut m2 w2 => exact absurd hrun (by simp)

/-- Witness for C5: a two-step run (one executed, one skipped) completes
and the saved record is gone. -/
theorem c5_completion_clears_progress_witness :
    ({ file := FileState.absent, writeFails := false, now := "t0" } : World).file =
      FileState.absent ∧
    (loadProgress { file := FileState.absent, writeFails := false, now := "t0" }).1 =
      none :=
  c5_completion_clears_progress [okStep "s1", skipStep] false false 10
    Machine.new
    { context := initialContext, currentStateIndex := 2,
      completedStates := ["s1", "toolA"] }
    scenarioWorld
    { file := .absent, writeFails := false, now := "t0" } rfl

/-! ## Claim C6 — persistence faults never escape -/

/-- **C6.**  Persistence faults are absorbed: `loadProgress` returns
no record both when the file is missing (silently) and when its contents
fail to parse (with only a warning); a failing `saveProgress` is caught
and downgraded to a warning, leaving the file untouched; and after such a
failed save the engine simply continues — a successful step still
records its name, advances the index and proceeds to the next step with
the world unchanged. -/
theorem c6_persistence_faults_are_warnings :
    (∀ w : World, w.file = .absent → loadProgress w = (none, [])) ∧
    (∀ w : World, w.file = .corrupt → loadProgress w = (none, [Event.loadWarned])) ∧
    (∀ (m : Machine) (w : World), w.writeFails = true →
      saveProgress m w = (w, [Event.saveWarned])) ∧
    (∀ (states : List StateUnit) (fuel calls : Nat) (m : Machine) (w : World)
        (r : RunResult) (ctx' : Ctx) (evs : List ExecEvent)
        (h : m.currentStateIndex < states.length),
        executeState (states.get ⟨m.currentStateIndex, h⟩) calls m.context =
          (.ok (r, ctx'), evs) →
        r.success = true → w.writeFails = true →
        runLoop states (fuel + 1) calls m w =
          ((runLoop states fuel 0
              (advanceIndex (pushCompleted
                (jsShowName (states.get ⟨m.currentStateIndex, h⟩).name)
                { m with context := ctx' })) w).1,
           evs.map (tagExec m.currentStateIndex) ++ [Event.saveWarned] ++
             (runLoop states fuel 0
              (advanceIndex (pushCompleted
                (jsShowName (states.get ⟨m.currentStateIndex, h⟩).name)
                { m with context := ctx' })) w).2)) := by
  refine ⟨?_, ?_, ?_, ?_⟩
  · intro w hw
    unfold loadProgress
    rw [hw]
  · intro w hw
    unfold loadProgress
    rw [hw]
  · intro m w hw
    unfold saveProgress
    rw [hw]
    rfl
  · intro states fuel calls m w r ctx' evs h hexec hs hw
    have hsave : saveProgress (pushCompleted
        (jsShowName (states.get ⟨m.currentStateIndex, h⟩).name)
        { m with context := ctx' }) w = (w, [Event.saveWarned]) := by
      unfold saveProgress
      rw [hw]
      rfl
    rw [runLoop_success states fuel calls m w h r ctx' evs hexec hs, hsave]

/-- Witness for C6 at concrete worlds: a corrupt file loads as absent
with a warning, and a failing save is a warning that leaves the world
unchanged while the engine still advances. -/
theorem c6_persistence_faults_witness :
    loadProgress { file := .corrupt, writeFails := false, now := "t" } =
      (none, [Event.loadWarned]) ∧
    saveProgress Machine.new { file := .absent, writeFails := true, now := "t" } =
      ({ file := .absent, writeFails := true, now := "t" }, [Event.saveWarned]) ∧
    runLoop [okStep "s1"] 2 0 Machine.new
        { file := .absent, writeFails := true, now := "t" } =
      ((runLoop [okStep "s1"] 1 0
          (advanceIndex (pushCompleted "s1" Machine.new))
          { file := .absent, writeFails := true, now := "t" }).1,
       [Event.runCalled 0] ++ [Event.saveWarned] ++
         (runLoop [okStep "s1"] 1 0
          (advanceIndex (pushCompleted "s1" Machine.new))
          { file := .absent, writeFails := true, now := "t" }).2) := by
  refine ⟨?_, ?_, ?_⟩
  · exact c6_persistence_faults_are_warnings.2.1
      { file := .corrupt, writeFails := false, now := "t" } rfl
  · exact c6_persistence_faults_are_warnings.2.2.1 Machine.new
      { file := .absent, writeFails := true, now := "t" } rfl
  · have h := c6_persistence_faults_are_warnings.2.2.2 [okStep "s1"] 1 0
      Machine.new { file := .absent, writeFails := true, now := "t" }
      { success := true } initialContext [.runCalled] (by decide) rfl rfl rfl
    exact h.trans rfl

/-! ## Claim C7 — rojoServer port selection -/

/-- The fallback loop selects the first available port and probes exactly
the unavailable prefix plus (when one exists) the first available port. -/
lemma tryFallbacks_spec (avail : Nat → Bool) :
    ∀ l : List Nat, tryFallbacks avail l =
      (l.find? avail,
       l.takeWhile (fun p => !avail p) ++ (l.dropWhile (fun p => !avail p)).take 1) := by
  intro l
  induction l with
  | nil => rfl
  | cons p ps ih =>
    by_cases hp : avail p
    · simp [tryFallbacks, hp, List.find?_cons, List.takeWhile_cons, List.dropWhile_cons]
    · simp only [tryFallbacks, hp, Bool.false_eq_true, if_false, ih,
        List.find?_cons, List.takeWhile_cons, List.dropWhile_cons, Bool.not_false,
        if_true, List.cons_append]

/-- `findRojoPort` obeys the same first-available characterisation over
the full probe order `DEFAULT_PORT :: FALLBACK_PORTS`. -/
lemma findRojoPort_spec (avail : Nat → Bool) :
    findRojoPort avail =
      (rojoPorts.find? avail,
       rojoPorts.takeWhile (fun p => !avail p) ++
         (rojoPorts.dropWhile (fun p => !avail p)).take 1) := by
  unfold findRojoPort rojoPorts
  by_cases hd : avail DEFAULT_PORT
  · simp [hd, List.find?_cons, List.takeWhile_cons, List.dropWhile_cons]
  · simp only [hd, Bool.false_eq_true, if_false, tryFallbacks_spec avail FALLBACK_PORTS,
      List.find?_cons, List.takeWhile_cons, List.dropWhile_cons, Bool.not_false,
      if_true, List.cons_append]

/-- **C7.**  The port selection of `rojoServer.run` probes 34872 first
and then the fallbacks 34873..34876 in order, selecting the first
available port and probing nothing past it (the probed list is the
unavailable prefix plus the selected port); with 34872 occupied and
34873 free it selects 34873 having probed exactly `[34872, 34873]`; and
when every port is occupied the step returns `{success: false, retry}`
with `retry` the user's prompt answer — the server is not started. -/
theorem c7_rojo_port_selection (avail : Nat → Bool) (ans : Bool) :
    ((findRojoPort avail).1 = rojoPorts.find? avail ∧
     (findRojoPort avail).2 =
       rojoPorts.takeWhile (fun p => !avail p) ++
         (rojoPorts.dropWhile (fun p => !avail p)).take 1) ∧
    (avail 34872 = false → avail 34873 = true →
      rojoPortPhase avail ans = (.startServer 34873, [34872, 34873])) ∧
    ((∀ p ∈ rojoPorts, avail p = false) →
      rojoPortPhase avail ans =
        (.fail { success := false, retry := ans }, rojoPorts)) := by
  refine ⟨⟨?_, ?_⟩, ?_, ?_⟩
  · rw [findRojoPort_spec]
  · rw [findRojoPort_spec]
  · intro h72 h73
    unfold rojoPortPhase findRojoPort DEFAULT_PORT FALLBACK_PORTS tryFallbacks
    simp [h72, h73]
  · intro hall
    have g : ∀ p, p ∈ rojoPorts → avail p = false := hall
    have h0 := g 34872 (by simp [rojoPorts, DEFAULT_PORT, FALLBACK_PORTS])
    have h1 := g 34873 (by simp [rojoPorts, DEFAULT_PORT, FALLBACK_PORTS])
    have h2 := g 34874 (by simp [rojoPorts, DEFAULT_PORT, FALLBACK_PORTS])
    have h3 := g 34875 (by simp [rojoPorts, DEFAULT_PORT, FALLBACK_PORTS])
    have h4 := g 34876 (by simp [rojoPorts, DEFAULT_PORT, FALLBACK_PORTS])
    unfold rojoPortPhase findRojoPort rojoPorts DEFAULT_PORT FALLBACK_PORTS
    simp [tryFallbacks_spec, h0, h1, h2, h3, h4,
      List.find?_cons, List.takeWhile_cons, List.dropWhile_cons]

/-- Witness for C7 at concrete availability oracles. -/
theorem c7_rojo_port_selection_witness :
    rojoPortPhase (fun p => decide (p = 34873)) true =
      (.startServer 34873, [34872, 34873]) ∧
    rojoPortPhase (fun _ => false) false =
      (.fail { success := false, retry := false }, rojoPorts) := by
  constructor
  · exact (c7_rojo_port_selection (fun p => decide (p = 34873)) true).2.1
      (by decide) (by decide)
  · exact (c7_rojo_port_selection (fun _ => false) false).2.2 (fun p _ => rfl)

/-! ## Claim C9 — persistence round trip -/

/-- **C9.**  Saving the engine state with a working file system and
loading it back yields a record which, restored into any fresh engine,
reproduces `currentStateIndex`, `completedStates` and the Context
exactly.  (Serialization is the identity on the JSON-shaped record, so
every representable Context is serializable.) -/
theorem c9_persistence_roundtrip (m m0 : Machine) (w : World)
    (hw : w.writeFails = false) :
    ∃ r : ProgressRecord,
      (loadProgress (saveProgress m w).1).1 = some r ∧
      (restoreProgress r m0).currentStateIndex = m.currentStateIndex ∧
      (restoreProgress r m0).completedStates = m.completedStates ∧
      (restoreProgress r m0).context = m.context := by
  refine ⟨⟨"1.0.0", w.now, m.currentStateIndex, m.completedStates, m.context⟩,
    ?_, ?_, rfl, rfl⟩
  · unfold saveProgress
    rw [hw]
    rfl
  · unfold restoreProgress
    by_cases h0 : m.currentStateIndex = 0 <;> simp [h0]

/-- Witness for C9 at a concrete machine with a populated context. -/
theorem c9_persistence_roundtrip_witness :
    ∃ r : ProgressRecord,
      (loadProgress (saveProgress
        { context := [("a", JsVal.num 1)], currentStateIndex := 5,
          completedStates := ["x"] } scenarioWorld).1).1 = some r ∧
      (restoreProgress r Machine.new).currentStateIndex = 5 ∧
      (restoreProgress r Machine.new).completedStates = ["x"] ∧
      (restoreProgress r Machine.new).context = [("a", JsVal.num 1)] := by
  exact c9_persistence_roundtrip
    { context := [("a", JsVal.num 1)], currentStateIndex := 5,
      completedStates := ["x"] }
    Machine.new scenarioWorld rfl

/-! ## Claim C2 — retry semantics -/

/-- **C2.**  On a `retry: true` result the loop does not advance the
index, persists nothing, and re-enters the same step (the iteration's
whole effect is the step's own hook events plus a recursive call at the
same `currentStateIndex` with the same world); a step whose `run` never
reports failure-with-retry is invoked at most once in any run, so the
retry path is the only source of repetition; and in the concrete
scenario of a step returning `retry: true` twice and then
`success: true` the engine invokes `run` exactly three times, returns
normally, and ends with `currentStateIndex = 1` — advanced exactly
once. -/
theorem c2_retry_repeats_same_step :
    (∀ (states : List StateUnit) (fuel calls : Nat) (m : Machine) (w : World)
        (r : RunResult) (ctx' : Ctx) (evs : List ExecEvent)
        (h : m.currentStateIndex < states.length),
        executeState (states.get ⟨m.currentStateIndex, h⟩) calls m.context =
          (.ok (r, ctx'), evs) →
        r.success = false → r.retry = true →
        runLoop states (fuel + 1) calls m w =
          ((runLoop states fuel (calls + 1) { m with context := ctx' } w).1,
           evs.map (tagExec m.currentStateIndex) ++
             (runLoop states fuel (calls + 1) { m with context := ctx' } w).2)) ∧
    (∀ (states : List StateUnit) (i : Nat), stepNeverRetries states i →
      ∀ (fuel calls : Nat) (m : Machine) (w : World),
        ((runLoop states fuel calls m w).2.count (Event.runCalled i)) ≤ 1) ∧
    ((runLoop [retryTwiceStep] 4 0 Machine.new scenarioWorld).2.count
        (Event.runCalled 0) = 3 ∧
     (runLoop [retryTwiceStep] 4 0 Machine.new scenarioWorld).1.isOk = true ∧
     ((runLoop [retryTwiceStep] 4 0 Machine.new scenarioWorld).1.machine).currentStateIndex
        = 1) := by
  refine ⟨?_, ?_, rfl, rfl, rfl⟩
  · intro states fuel calls m w r ctx' evs h hexec hs hret
    exact runLoop_retry states fuel calls m w h r ctx' evs hexec hs hret
  · intro states i hnr fuel calls m w
    exact runLoop_runCalled_le_one states i hnr fuel calls m w

/-- Witness for C2's universal parts: a concrete retrying iteration and
a concrete never-retrying step. -/
theorem c2_retry_repeats_same_step_witness :
    runLoop [retryTwiceStep] 4 0 Machine.new scenarioWorld =
      ((runLoop [retryTwiceStep] 3 1 Machine.new scenarioWorld).1,
       [Event.runCalled 0] ++
         (runLoop [retryTwiceStep] 3 1 Machine.new scenarioWorld).2) ∧
    (runLoop [okStep "s1"] 5 0 Machine.new scenarioWorld).2.count
      (Event.runCalled 0) ≤ 1 := by
  constructor
  · have h := c2_retry_repeats_same_step.1 [retryTwiceStep] 3 0
      Machine.new scenarioWorld { success := false, retry := true }
      initialContext [.runCalled] (by decide) rfl rfl rfl
    exact h.trans rfl
  · exact c2_retry_repeats_same_step.2.1 [okStep "s1"] 0
      (fun state hstate runf hrunf c ctx => by
        simp only [List.get?] at hstate
        injection hstate with e
        rw [← e] at hrunf
        injection hrunf with e2
        rw [← e2]
        exact Or.inl rfl)
      5 0 Machine.new scenarioWorld
